import Mathlib

/-
Verification development for the Comcast/TMO configurator processor.

The Python pipeline (src/app/pdf_parser.py, src/app/data_processer.py) is
shallowly embedded below.  Python dictionaries are modelled as association
lists `List (String × α)` with Python's insertion-order semantics:
`dictSet` overwrites an existing key in place or appends a fresh one,
`dictGet` returns the value of the first matching key, `dictUpdate` is
`dict.update`, `dictPop` is `dict.pop(key, None)`.  Optional string fields
(Python `None` / missing keys) are `Option String`; Python truthiness of a
string-or-None value is `truthy`.  Python's substring test `a in b` is
`substrOf`.
-/

namespace TMO

/-- Python truthiness of an optional string: `None` and the empty string
are falsy, every other string is truthy. -/
def truthy : Option String → Bool
  | none => false
  | some s => !(s == "")

/-- Python `needle in hay` on character lists. -/
def subList : List Char → List Char → Bool
  | needle, [] => needle.isEmpty
  | needle, c :: rest => needle.isPrefixOf (c :: rest) || subList needle rest

/-- Python `needle in hay` for strings (substring containment). -/
def substrOf (needle hay : String) : Bool :=
  subList needle.data hay.data

/-- Python `d[k] = v` on an insertion-ordered dictionary: overwrite the
first occurrence of `k` in place, else append `(k, v)` at the end. -/
def dictSet {α : Type} : List (String × α) → String → α → List (String × α)
  | [], k, v => [(k, v)]
  | p :: d, k, v => if p.1 = k then (k, v) :: d else p :: dictSet d k v

/-- Python `d.get(k)`: value of the first occurrence of `k`, if any. -/
def dictGet {α : Type} : List (String × α) → String → Option α
  | [], _ => none
  | p :: d, k => if p.1 = k then some p.2 else dictGet d k

/-- Python `d.pop(k, None)`: remove every binding of `k`. -/
def dictPop {α : Type} (d : List (String × α)) (k : String) : List (String × α) :=
  d.filter (fun p => decide (p.1 ≠ k))

/-- Python `d.update(e)`: set each binding of `e` into `d`, in order. -/
def dictUpdate {α : Type} (d e : List (String × α)) : List (String × α) :=
  e.foldl (fun d p => dictSet d p.1 p.2) d

/-- The per-order Record built by `PonDictCreator._create_pon_dict`
(src/app/pdf_parser.py lines 152-155) and enriched later.  The named
optional fields are the keys of the Python record dict; `addr` holds the
address columns merged in by `add_address_data` (assumed disjoint from the
named keys, as they are for the site-lookup workbook). -/
structure Rec where
  evc1 : Option String
  evc2 : Option String
  uni : Option String
  tower_name : String
  contact_name : Option String
  contact_phone : Option String
  contact_email : Option String
  date_sent : Option String
  cvlan : Option String
  addr : List (String × String)
deriving DecidableEq

/-- The extraction outcome of one PDF document: what
`_parse_date_info`, `_parse_contact_info` and `_parse_circuit_info`
return for it (src/app/pdf_parser.py lines 161-164). -/
structure Doc where
  date_info : Option String
  contact_name : Option String
  contact_phone : Option String
  contact_email : Option String
  cir : Option String
deriving DecidableEq

/-- The configured circuit vocabularies
(`config["tmo_circuits"]["evc_uniq_keys"]`, a single string, and
`config["tmo_circuits"]["uni_uniq_keys"]`, a list of strings). -/
structure BuildCfg where
  evc_uniq_keys : String
  uni_uniq_keys : List String
deriving DecidableEq

/-- The fresh record of src/app/pdf_parser.py lines 154-155. -/
def initRec (pon : String) : Rec :=
  { evc1 := none, evc2 := none, uni := none, tower_name := pon,
    contact_name := none, contact_phone := none, contact_email := none,
    date_sent := none, cvlan := none, addr := [] }

/-- Lines 167-175 of src/app/pdf_parser.py: truthy date and contact
extractions overwrite the record fields (last write wins). -/
def applyExtract (r : Rec) (d : Doc) : Rec :=
  let r1 := if truthy d.date_info then { r with date_sent := d.date_info } else r
  let r2 := if truthy d.contact_name then { r1 with contact_name := d.contact_name } else r1
  let r3 := if truthy d.contact_phone then { r2 with contact_phone := d.contact_phone } else r2
  if truthy d.contact_email then { r3 with contact_email := d.contact_email } else r3

/-- Lines 178-187 of src/app/pdf_parser.py, for a non-None circuit token:
an EVC-family token fills `evc1` if it is None, else is written into
`evc2` (overwriting it); a UNI-family token always overwrites `uni`;
any other token only logs an error. -/
def applyCircuit (cfg : BuildCfg) (r : Rec) (c : String) : Rec :=
  if substrOf cfg.evc_uniq_keys c then
    if r.evc1.isNone then { r with evc1 := some c } else { r with evc2 := some c }
  else if cfg.uni_uniq_keys.any (fun k => substrOf k c) then
    { r with uni := some c }
  else r

/-- The document loop of `_create_pon_dict` (src/app/pdf_parser.py lines
157-189).  When a document yields no circuit token (`cir is None`), line
178 evaluates `key in None` which raises TypeError; the `except` at line
189 catches it outside the loop, so the date/contact updates of that
document persist and the remaining documents are not processed. -/
def buildLoop (cfg : BuildCfg) : Rec → List Doc → Rec
  | r, [] => r
  | r, d :: ds =>
    let r1 := applyExtract r d
    match d.cir with
    | none => r1
    | some c => buildLoop cfg (applyCircuit cfg r1 c) ds

/-- `PonDictCreator._create_pon_dict` on the documents of one order
directory: a one-entry dict mapping the directory basename to the built
record. -/
def create_pon_dict (cfg : BuildCfg) (ponNum : String) (docs : List Doc) :
    List (String × Rec) :=
  [(ponNum, buildLoop cfg (initRec ponNum) docs)]

/-- `PonDictCreator.create_full_dict` (src/app/pdf_parser.py lines
196-200): folds `dict.update` of each directory's one-entry dict into the
accumulated full dict. -/
def create_full_dict (cfg : BuildCfg) (dirs : List (String × List Doc)) :
    List (String × Rec) :=
  dirs.foldl (fun acc pr => dictUpdate acc (create_pon_dict cfg pr.1 pr.2)) []

/-- One row of the TMO circuit cross-reference CSV
(`config["tmo_circuits"]["tmo_lookup_path"]`): tower column, EVC column
and the CVLAN column.  `sort_by_type` filters the same table by its
`"Tower Name"` column, which the column mapping points at as well. -/
structure LookupRow where
  tower : String
  evc : String
  cvlan : String
deriving DecidableEq

/-- The polars filter of `_get_cvlan` (src/app/data_processer.py lines
64-67): rows whose tower column equals `tower` and whose EVC column
equals the record's slot value, projected to the CVLAN column.  A `None`
slot value matches no row (polars null comparison). -/
def filterCvlan (df : List LookupRow) (tower : String) (evcVal : Option String) :
    List String :=
  (df.filter (fun row => row.tower == tower &&
    (match evcVal with | none => false | some e => row.evc == e))).map LookupRow.cvlan

/-- A reference query as the enrichment sees it: given a tower identity
and a slot value it either returns the matching CVLAN rows or raises
(bad table, bad column mapping, ...). -/
abbrev Query : Type := String → Option String → Except Unit (List String)

/-- The query backed by a concrete in-memory lookup table (the non-raising
case of `_get_cvlan`). -/
def tableQuery (df : List LookupRow) : Query :=
  fun tower evcVal => Except.ok (filterCvlan df tower evcVal)

/-- `PonDictProcessor._get_cvlan` (src/app/data_processer.py lines 63-72):
`result.item() if len(result) == 1 else None` on success; on a raised
error, log, append the tower to `suspicious_towers` and return None.
Note a multi-row result returns None without touching the list. -/
def getCvlan (q : Except Unit (List String)) (tower : String)
    (susp : List String) : Option String × List String :=
  match q with
  | Except.error _ => (none, susp ++ [tower])
  | Except.ok rows =>
    match rows with
    | [x] => (some x, susp)
    | _ => (none, susp)

/-- Python `x or ''` for an optional string. -/
def orEmpty (o : Option String) : String := o.getD ""

/-- Python `s.strip("/")`: drop leading and trailing slashes. -/
def stripSlash (s : String) : String :=
  ⟨((s.data.dropWhile (· == '/')).reverse.dropWhile (· == '/')).reverse⟩

/-- Line 42 of src/app/data_processer.py:
the composite CVLAN string built from the two slot tags. -/
def combineCvlan (c1 c2 : Option String) : String :=
  stripSlash (orEmpty c1 ++ "/" ++ orEmpty c2)

/-- The body of the `add_cvlan_data` loop for one record
(src/app/data_processer.py lines 36-46): query both slots (threading the
suspicious list), combine, and set the `cvlan` key only when the
combination is truthy. -/
def addCvlanRecord (query : Query) (v : Rec) (susp : List String) :
    Rec × List String :=
  let p1 := getCvlan (query v.tower_name v.evc1) v.tower_name susp
  let p2 := getCvlan (query v.tower_name v.evc2) v.tower_name p1.2
  let combined := combineCvlan p1.1 p2.1
  if combined == "" then (v, p2.2) else ({ v with cvlan := some combined }, p2.2)

/-- The `for key, value in pon_dict.items()` loop of `add_cvlan_data`,
processing records in insertion order and threading the suspicious list. -/
def addCvlanList (query : Query) : List (String × Rec) → List String →
    List (String × Rec) × List String
  | [], susp => ([], susp)
  | kv :: rest, susp =>
    let p := addCvlanRecord query kv.2 susp
    let q := addCvlanList query rest p.2
    ((kv.1, p.1) :: q.1, q.2)

/-- `PonDictProcessor.add_cvlan_data` (src/app/data_processer.py lines
21-48): deep-copies the input (value semantics here) and returns the
updated dict together with the suspicious-towers list. -/
def add_cvlan_data (query : Query) (pd : List (String × Rec)) :
    List (String × Rec) × List String :=
  addCvlanList query pd []

/-- `PonDictProcessor.add_address_data` (src/app/data_processer.py lines
74-93).  The site table is a list of rows, each a dict of column name to
value containing a `"Site Name"` column.  For each record, the first row
whose `"Site Name"` equals the record's key is merged in with
`value.update(site_info)` followed by `value.pop("Site Name", None)`;
when no row matches (`row(0)` raises, caught) the record is unchanged. -/
def add_address_data (df : List (List (String × String)))
    (pd : List (String × Rec)) : List (String × Rec) :=
  pd.map (fun kv =>
    match df.find? (fun row => dictGet row "Site Name" == some kv.1) with
    | none => kv
    | some row =>
      (kv.1, { kv.2 with addr := dictPop (dictUpdate kv.2.addr row) "Site Name" }))

/-- The four leaf buckets of `sort_by_type`. -/
inductive Bucket where
  | vlan
  | unievc
  | fdisc
  | no_type
deriving DecidableEq

/-- The classifier output `sorted_dict` (src/app/data_processer.py line
105), with the two `pdisc` sub-dicts and the two top-level dicts. -/
structure Classified where
  vlan : List (String × Rec)
  unievc : List (String × Rec)
  fdisc : List (String × Rec)
  no_type : List (String × Rec)
deriving DecidableEq

/-- The empty classifier output. -/
def emptyClassified : Classified := ⟨[], [], [], []⟩

/-- The bucket dict of a `Classified`. -/
def getBucket (c : Classified) : Bucket → List (String × Rec)
  | Bucket.vlan => c.vlan
  | Bucket.unievc => c.unievc
  | Bucket.fdisc => c.fdisc
  | Bucket.no_type => c.no_type

/-- `len(lookup_df.filter(pl.col("Tower Name") == key))`
(src/app/data_processer.py line 108). -/
def towerMatchCount (lookup : List LookupRow) (k : String) : Nat :=
  (lookup.filter (fun row => row.tower == k)).length

/-- The per-record branch structure of `sort_by_type`
(src/app/data_processer.py lines 111-122), as a pure function of the
tower match count and the truthiness of `uni`, `evc1`, `evc2`. -/
def classifyLeaf (n : Nat) (u e1 e2 : Bool) : Bucket :=
  if 2 < n then
    if u && e1 && e2 then Bucket.unievc
    else if e1 && e2 && !u then Bucket.vlan
    else Bucket.no_type
  else
    if u && e1 && e2 then Bucket.fdisc
    else Bucket.no_type

/-- `sorted_dict[...][key] = value` into the chosen bucket. -/
def bucketInsert (c : Classified) (b : Bucket) (k : String) (v : Rec) : Classified :=
  match b with
  | Bucket.vlan => { c with vlan := dictSet c.vlan k v }
  | Bucket.unievc => { c with unievc := dictSet c.unievc k v }
  | Bucket.fdisc => { c with fdisc := dictSet c.fdisc k v }
  | Bucket.no_type => { c with no_type := dictSet c.no_type k v }

/-- The `for key, value in pon_dict.items()` loop of `sort_by_type`. -/
def sortByTypeAux (lookup : List LookupRow) :
    List (String × Rec) → Classified → Classified
  | [], c => c
  | kv :: rest, c =>
    sortByTypeAux lookup rest
      (bucketInsert c
        (classifyLeaf (towerMatchCount lookup kv.1)
          (truthy kv.2.uni) (truthy kv.2.evc1) (truthy kv.2.evc2))
        kv.1 kv.2)

/-- `PonDictProcessor.sort_by_type` (src/app/data_processer.py lines
95-124). -/
def sort_by_type (lookup : List LookupRow) (pd : List (String × Rec)) : Classified :=
  sortByTypeAux lookup pd emptyClassified

/-- One section of the grouped output: a dict from date to a dict from
order id to record. -/
abbrev Section : Type := List (String × List (String × Rec))

/-- `target[date_sent][key] = value` on the per-section
`defaultdict(dict)`: auto-vivify the date group, then set the key. -/
def setIn (t : Section) (d k : String) (v : Rec) : Section :=
  match dictGet t d with
  | none => t ++ [(d, [(k, v)])]
  | some grp => dictSet t d (dictSet grp k v)

/-- `group_entries` (src/app/data_processer.py lines 136-140): entries
whose `date_sent` is truthy are inserted under their date; the rest are
dropped. -/
def group_entries : List (String × Rec) → Section → Section
  | [], t => t
  | kv :: rest, t =>
    group_entries rest
      (match kv.2.date_sent with
       | some d => if d = "" then t else setIn t d kv.1 kv.2
       | none => t)

/-- The grouped output: a dict from section name to `Section`. -/
abbrev Grouping : Type := List (String × Section)

/-- `PonDictProcessor.sort_by_date` (src/app/data_processer.py lines
126-147).  The `defaultdict` accumulator is touched for the four sections
in the order `unievc`, `vlan`, `fdisc`, `no_type` (lines 142-145), so the
output dict always has exactly these four keys in this order, each
grouping only its own bucket's entries. -/
def sort_by_date (c : Classified) : Grouping :=
  [("unievc", group_entries c.unievc []),
   ("vlan", group_entries c.vlan []),
   ("fdisc", group_entries c.fdisc []),
   ("no_type", group_entries c.no_type [])]

/-- Lookup of one record in one section of a grouping. -/
def lookup2 (t : Section) (d k : String) : Option Rec :=
  match dictGet t d with
  | none => none
  | some grp => dictGet grp k

/-- Concatenate the date groups of a section back into a flat bucket. -/
def flattenSection : Section → List (String × Rec)
  | [] => []
  | g :: gs => g.2 ++ flattenSection gs

/-- Flatten a grouping back into the classified-bucket shape, section by
section. -/
def flattenGrouped (g : Grouping) : Classified :=
  { unievc := flattenSection ((dictGet g "unievc").getD []),
    vlan := flattenSection ((dictGet g "vlan").getD []),
    fdisc := flattenSection ((dictGet g "fdisc").getD []),
    no_type := flattenSection ((dictGet g "no_type").getD []) }

/-! ### Dictionary lemmas -/

theorem dictGet_dictSet {α : Type} (d : List (String × α)) (k : String) (v : α)
    (k' : String) :
    dictGet (dictSet d k v) k' = if k' = k then some v else dictGet d k' := by
  induction d with
  | nil =>
    by_cases h : k' = k <;> simp [dictSet, dictGet, h]
    exact fun h' => absurd h'.symm h
  | cons p d ih =>
    by_cases hpk : p.1 = k
    · simp only [dictSet, if_pos hpk]
      by_cases h : k' = k
      · simp [dictGet, h]
      · have h' : ¬ k = k' := fun he => h he.symm
        have h'' : ¬ p.1 = k' := fun he => h' (hpk.symm.trans he)
        simp [dictGet, h, h', h'']
    · simp only [dictSet, if_neg hpk]
      by_cases h2 : p.1 = k'
      · have h3 : ¬ k' = k := fun he => hpk (h2.trans he)
        simp [dictGet, h2, h3]
      · by_cases h3 : k' = k
        · subst h3
          simp [dictGet, ih, h2, hpk]
        · simp [dictGet, ih, h2, h3]

theorem mem_dictSet {α : Type} (d : List (String × α)) (k : String) (v : α)
    (p : String × α) (hp : p ∈ dictSet d k v) : p ∈ d ∨ p = (k, v) := by
  induction d with
  | nil => simpa [dictSet] using hp
  | cons q d ih =>
    simp only [dictSet] at hp
    by_cases hq : q.1 = k
    · rw [if_pos hq] at hp
      rcases List.mem_cons.mp hp with h | h
      · exact Or.inr h
      · exact Or.inl (List.mem_cons_of_mem _ h)
    · rw [if_neg hq] at hp
      rcases List.mem_cons.mp hp with h | h
      · exact Or.inl (h ▸ List.mem_cons_self _ _)
      · rcases ih h with h' | h'
        · exact Or.inl (List.mem_cons_of_mem _ h')
        · exact Or.inr h'

theorem mem_keys_dictSet {α : Type} (d : List (String × α)) (k : String) (v : α)
    (a : String) :
    a ∈ (dictSet d k v).map Prod.fst ↔ a ∈ d.map Prod.fst ∨ a = k := by
  induction d with
  | nil => simp [dictSet]
  | cons q d ih =>
    simp only [dictSet]
    by_cases hq : q.1 = k
    · rw [if_pos hq]
      simp [hq]
      tauto
    · rw [if_neg hq]
      simp only [List.map_cons, List.mem_cons, ih]
      tauto

theorem keys_nodup_dictSet {α : Type} (d : List (String × α)) (k : String) (v : α)
    (h : (d.map Prod.fst).Nodup) : ((dictSet d k v).map Prod.fst).Nodup := by
  induction d with
  | nil => simp [dictSet]
  | cons q d ih =>
    simp only [List.map_cons, List.nodup_cons] at h
    simp only [dictSet]
    by_cases hq : q.1 = k
    · rw [if_pos hq]
      simp only [List.map_cons, List.nodup_cons]
      exact ⟨hq ▸ h.1, h.2⟩
    · rw [if_neg hq]
      simp only [List.map_cons, List.nodup_cons]
      refine ⟨fun hc => ?_, ih h.2⟩
      rcases (mem_keys_dictSet d k v q.1).mp hc with hc' | hc'
      · exact h.1 hc'
      · exact hq hc'

theorem dictSet_of_not_mem_keys {α : Type} (d : List (String × α)) (k : String)
    (v : α) (h : k ∉ d.map Prod.fst) : dictSet d k v = d ++ [(k, v)] := by
  induction d with
  | nil => simp [dictSet]
  | cons q d ih =>
    simp only [List.map_cons, List.mem_cons, not_or] at h
    simp only [dictSet]
    rw [if_neg (fun he => h.1 (Eq.symm he)), ih h.2]
    simp

theorem keys_dictSet_of_mem {α : Type} (d : List (String × α)) (k : String) (v : α)
    (h : k ∈ d.map Prod.fst) : (dictSet d k v).map Prod.fst = d.map Prod.fst := by
  induction d with
  | nil => simp at h
  | cons q d ih =>
    simp only [dictSet]
    by_cases hq : q.1 = k
    · rw [if_pos hq]
      simp [hq]
    · rw [if_neg hq]
      simp only [List.map_cons, List.mem_cons] at h
      rcases h with h | h
      · exact absurd h.symm hq
      · simp [ih h]

theorem dictSet_ne_nil {α : Type} (d : List (String × α)) (k : String) (v : α) :
    dictSet d k v ≠ [] := by
  cases d with
  | nil => simp [dictSet]
  | cons q d =>
    simp only [dictSet]
    split <;> simp

theorem dictGet_eq_none_iff {α : Type} (d : List (String × α)) (k : String) :
    dictGet d k = none ↔ k ∉ d.map Prod.fst := by
  induction d with
  | nil => simp [dictGet]
  | cons q d ih =>
    simp only [dictGet, List.map_cons, List.mem_cons]
    by_cases hq : q.1 = k
    · rw [if_pos hq]
      simp [hq]
    · rw [if_neg hq, ih]
      have h' : ¬ k = q.1 := fun he => hq he.symm
      simp [h']

theorem dictGet_mem {α : Type} (d : List (String × α)) (k : String) (v : α)
    (h : dictGet d k = some v) : (k, v) ∈ d := by
  induction d with
  | nil => simp [dictGet] at h
  | cons q d ih =>
    simp only [dictGet] at h
    by_cases hq : q.1 = k
    · rw [if_pos hq] at h
      have : q = (k, v) := by
        cases q
        simp only [Option.some.injEq] at h
        simp_all
      exact this ▸ List.mem_cons_self _ _
    · rw [if_neg hq] at h
      exact List.mem_cons_of_mem _ (ih h)

theorem dictGet_of_mem_nodup {α : Type} (d : List (String × α)) (k : String) (v : α)
    (hnd : (d.map Prod.fst).Nodup) (h : (k, v) ∈ d) : dictGet d k = some v := by
  induction d with
  | nil => simp at h
  | cons q d ih =>
    simp only [List.map_cons, List.nodup_cons] at hnd
    rcases List.mem_cons.mp h with h | h
    · simp [dictGet, ← h]
    · have hk : q.1 ≠ k := by
        intro he
        exact hnd.1 (he ▸ List.mem_map.mpr ⟨(k, v), h, rfl⟩)
      simp only [dictGet]
      rw [if_neg hk]
      exact ih hnd.2 h

theorem dictGet_append {α : Type} (d e : List (String × α)) (k : String) :
    dictGet (d ++ e) k =
      match dictGet d k with
      | some v => some v
      | none => dictGet e k := by
  induction d with
  | nil => simp [dictGet]
  | cons q d ih =>
    have hc : (q :: d) ++ e = q :: (d ++ e) := rfl
    rw [hc]
    simp only [dictGet]
    by_cases hq : q.1 = k
    · rw [if_pos hq, if_pos hq]
    · rw [if_neg hq, if_neg hq, ih]

theorem mem_keys_dictPop {α : Type} (d : List (String × α)) (k a : String) :
    a ∈ (dictPop d k).map Prod.fst ↔ a ∈ d.map Prod.fst ∧ a ≠ k := by
  induction d with
  | nil => simp [dictPop]
  | cons q d ih =>
    simp only [dictPop, List.filter_cons] at ih ⊢
    by_cases hq : q.1 = k
    · rw [if_neg (by simpa using hq)]
      rw [ih]
      simp only [List.map_cons, List.mem_cons]
      constructor
      · rintro ⟨h1, h2⟩
        exact ⟨Or.inr h1, h2⟩
      · rintro ⟨h1 | h1, h2⟩
        · exact absurd (h1.trans hq) h2
        · exact ⟨h1, h2⟩
    · rw [if_pos (by simpa using hq)]
      simp only [List.map_cons, List.mem_cons]
      rw [ih]
      constructor
      · rintro (h | ⟨h1, h2⟩)
        · exact ⟨Or.inl h, h ▸ hq⟩
        · exact ⟨Or.inr h1, h2⟩
      · rintro ⟨h1 | h1, h2⟩
        · exact Or.inl h1
        · exact Or.inr ⟨h1, h2⟩

theorem mem_keys_dictUpdate {α : Type} (e d : List (String × α)) (a : String)
    (h : a ∈ d.map Prod.fst) : a ∈ (dictUpdate d e).map Prod.fst := by
  induction e generalizing d with
  | nil => simpa [dictUpdate] using h
  | cons p e ih =>
    simp only [dictUpdate, List.foldl_cons]
    exact ih _ ((mem_keys_dictSet d p.1 p.2 a).mpr (Or.inl h))

theorem mem_dictUpdate {α : Type} (e d : List (String × α)) (p : String × α)
    (hp : p ∈ dictUpdate d e) : p ∈ d ∨ p ∈ e := by
  induction e generalizing d with
  | nil => exact Or.inl (by simpa [dictUpdate] using hp)
  | cons q e ih =>
    simp only [dictUpdate, List.foldl_cons] at hp
    rcases ih _ hp with h | h
    · rcases mem_dictSet d q.1 q.2 p h with h' | h'
      · exact Or.inl h'
      · exact Or.inr (h' ▸ List.mem_cons_self _ _)
    · exact Or.inr (List.mem_cons_of_mem _ h)

/-! ### Builder lemmas -/

theorem applyExtract_eq (r : Rec) (d : Doc) :
    applyExtract r d = { r with
      date_sent := if truthy d.date_info then d.date_info else r.date_sent,
      contact_name := if truthy d.contact_name then d.contact_name else r.contact_name,
      contact_phone := if truthy d.contact_phone then d.contact_phone else r.contact_phone,
      contact_email := if truthy d.contact_email then d.contact_email else r.contact_email } := by
  unfold applyExtract
  split <;> split <;> split <;> split <;> rfl

theorem applyCircuit_frame (cfg : BuildCfg) (r : Rec) (c : String) :
    (applyCircuit cfg r c).tower_name = r.tower_name ∧
    (applyCircuit cfg r c).date_sent = r.date_sent ∧
    (applyCircuit cfg r c).cvlan = r.cvlan ∧
    (applyCircuit cfg r c).addr = r.addr := by
  unfold applyCircuit
  split
  · split <;> simp
  · split <;> simp

theorem applyCircuit_evc_fresh (cfg : BuildCfg) (r : Rec) (c : String)
    (h : substrOf cfg.evc_uniq_keys c = true) (h1 : r.evc1 = none) :
    applyCircuit cfg r c = { r with evc1 := some c } := by
  simp [applyCircuit, h, h1]

theorem applyCircuit_evc_filled (cfg : BuildCfg) (r : Rec) (c : String)
    (h : substrOf cfg.evc_uniq_keys c = true) (h1 : r.evc1.isNone = false) :
    applyCircuit cfg r c = { r with evc2 := some c } := by
  simp [applyCircuit, h, h1]

theorem applyCircuit_uni (cfg : BuildCfg) (r : Rec) (c : String)
    (h : substrOf cfg.evc_uniq_keys c = false)
    (h2 : cfg.uni_uniq_keys.any (fun k => substrOf k c) = true) :
    applyCircuit cfg r c = { r with uni := some c } := by
  simp [applyCircuit, h, h2]

theorem buildLoop_tower (cfg : BuildCfg) (docs : List Doc) (r : Rec) :
    (buildLoop cfg r docs).tower_name = r.tower_name := by
  induction docs generalizing r with
  | nil => rfl
  | cons d ds ih =>
    simp only [buildLoop]
    cases hc : d.cir with
    | none => simp [applyExtract_eq]
    | some c =>
      rw [ih]
      rw [(applyCircuit_frame cfg (applyExtract r d) c).1]
      simp [applyExtract_eq]

/-! ### Shared concrete instances -/

/-- Concrete vocabularies matching the configured TMO circuit families. -/
def cfgX : BuildCfg := ⟨"EVCTAG", ["UNITAG"]⟩

/-- A document carrying the sent-date and the primary-family token of the
end-to-end scenario. -/
def docDate1 : Doc := ⟨some ("01-02-2024"), none, none, none, some ("1.EVCTAG.X.")⟩

/-- A document carrying the access-family token of the end-to-end
scenario. -/
def docUni1 : Doc := ⟨none, none, none, none, some ("1.UNITAG.Y.")⟩

/-- Three documents yielding primary-family tokens A, B, C in order. -/
def docA : Doc := ⟨none, none, none, none, some ("1.EVCTAG.A.")⟩

/-- Second primary-family document. -/
def docB : Doc := ⟨none, none, none, none, some ("1.EVCTAG.B.")⟩

/-- Third primary-family document. -/
def docC : Doc := ⟨none, none, none, none, some ("1.EVCTAG.C.")⟩

/-- Two documents yielding access-family tokens in order. -/
def docU1 : Doc := ⟨none, none, none, none, some ("1.UNITAG.U.")⟩

/-- Second access-family document. -/
def docU2 : Doc := ⟨none, none, none, none, some ("1.UNITAG.V.")⟩

/-- A document from which nothing at all could be extracted. -/
def docNone : Doc := ⟨none, none, none, none, none⟩

/-- A reference table giving `PON_1234` a tower match count of 3. -/
def lookupX : List LookupRow :=
  [⟨"PON_1234", "e1", "10"⟩, ⟨"PON_1234", "e2", "11"⟩, ⟨"PON_1234", "e3", "12"⟩]

/-- A reference table with two rows matching tower `T` and circuit `E`. -/
def lookupDup : List LookupRow := [⟨"T", "E", "10"⟩, ⟨"T", "E", "11"⟩]

/-- A record for tower `T` whose primary slot holds circuit `E`. -/
def recT : Rec := { initRec "T" with evc1 := some ("E") }

/-- A record for tower `T` with both circuit slots filled. -/
def recTT : Rec := { initRec "T" with evc1 := some ("E"), evc2 := some ("F") }

/-- A reference table with exactly one row for tower `T`, circuit `E`. -/
def lookupOne : List LookupRow := [⟨"T", "E", "10"⟩]

/-- A reference table with two rows each for both circuit slots of
tower `T`. -/
def lookupDup2 : List LookupRow :=
  [⟨"T", "E", "10"⟩, ⟨"T", "E", "11"⟩, ⟨"T", "F", "20"⟩, ⟨"T", "F", "21"⟩]

/-- The record the pipeline builds for the end-to-end scenario: `evc2`
stays absent because only one primary-family token is seen. -/
def recPON1234 : Rec :=
  { evc1 := some ("1.EVCTAG.X."), evc2 := none, uni := some ("1.UNITAG.Y."),
    tower_name := "PON_1234", contact_name := none, contact_phone := none,
    contact_email := none, date_sent := some ("01-02-2024"), cvlan := none,
    addr := [] }

/-- A record with a sent-date, for exercising the grouper. -/
def recDated : Rec := { initRec "K" with date_sent := some ("01-02-2024") }

/-- A small classified collection: one dated record in `unievc`, one
record without a date in `no_type`. -/
def cSmall : Classified :=
  { vlan := [], unievc := [("K", recDated)], fdisc := [],
    no_type := [("K2", initRec "K2")] }

/-! ### Claim C2 -/

/-- Claim C2 counterexample: for order id `P` with three documents yielding
primary-family tokens A, B, C in that order, the code ends with
`evc2 = C` — the third token is stored, overwriting B, not discarded as
the claim states. -/
theorem builder_third_token_counterexample :
    (buildLoop cfgX (initRec "P") [docA, docB, docC]).evc1 = some ("1.EVCTAG.A.") ∧
    (buildLoop cfgX (initRec "P") [docA, docB, docC]).evc2 = some ("1.EVCTAG.C.") ∧
    ¬ (buildLoop cfgX (initRec "P") [docA, docB, docC]).evc2 = some ("1.EVCTAG.B.") := by
  decide

/-- Claim C2 as amended: three primary-family tokens A, B, C leave
`evc1 = A` and `evc2 = C` (a later primary token beyond the first
overwrites the secondary slot, last one wins); an access-family token
always overwrites `uni`, last one wins. -/
theorem builder_slot_assignment (cfg : BuildCfg) (p : String)
    (dA dB dC d1 d2 : Doc) (a b c u1 u2 : String)
    (hA : dA.cir = some a) (hB : dB.cir = some b) (hC : dC.cir = some c)
    (ha : substrOf cfg.evc_uniq_keys a = true)
    (hb : substrOf cfg.evc_uniq_keys b = true)
    (hc : substrOf cfg.evc_uniq_keys c = true)
    (h1 : d1.cir = some u1) (h2 : d2.cir = some u2)
    (hu1e : substrOf cfg.evc_uniq_keys u1 = false)
    (hu2e : substrOf cfg.evc_uniq_keys u2 = false)
    (hu1 : cfg.uni_uniq_keys.any (fun k => substrOf k u1) = true)
    (hu2 : cfg.uni_uniq_keys.any (fun k => substrOf k u2) = true) :
    (buildLoop cfg (initRec p) [dA, dB, dC]).evc1 = some a ∧
    (buildLoop cfg (initRec p) [dA, dB, dC]).evc2 = some c ∧
    (buildLoop cfg (initRec p) [d1, d2]).uni = some u2 := by
  refine ⟨?_, ?_, ?_⟩
  · simp only [buildLoop, hA, hB, hC]
    rw [applyCircuit_evc_fresh cfg _ a ha (by simp [applyExtract_eq, initRec])]
    rw [applyCircuit_evc_filled cfg _ b hb (by simp [applyExtract_eq])]
    rw [applyCircuit_evc_filled cfg _ c hc (by simp [applyExtract_eq])]
    simp [applyExtract_eq]
  · simp only [buildLoop, hA, hB, hC]
    rw [applyCircuit_evc_fresh cfg _ a ha (by simp [applyExtract_eq, initRec])]
    rw [applyCircuit_evc_filled cfg _ b hb (by simp [applyExtract_eq])]
    rw [applyCircuit_evc_filled cfg _ c hc (by simp [applyExtract_eq])]
  · simp only [buildLoop, h1, h2]
    rw [applyCircuit_uni cfg _ u1 hu1e hu1]
    rw [applyCircuit_uni cfg _ u2 hu2e hu2]

/-- Claim C2 amended-theorem witness at the concrete vocabularies and
token documents. -/
theorem builder_slot_assignment_witness :
    (buildLoop cfgX (initRec "P") [docA, docB, docC]).evc1 = some ("1.EVCTAG.A.") ∧
    (buildLoop cfgX (initRec "P") [docA, docB, docC]).evc2 = some ("1.EVCTAG.C.") ∧
    (buildLoop cfgX (initRec "P") [docU1, docU2]).uni = some ("1.UNITAG.V.") :=
  builder_slot_assignment cfgX "P" docA docB docC docU1 docU2
    "1.EVCTAG.A." "1.EVCTAG.B." "1.EVCTAG.C." "1.UNITAG.U." "1.UNITAG.V."
    rfl rfl rfl (by decide) (by decide) (by decide) rfl rfl
    (by decide) (by decide) (by decide) (by decide)

/-! ### Claim C3 -/

/-- Claim C3 counterexample: a first document yielding no circuit token
aborts the per-order loop (the TypeError from `key in None` is caught
outside the loop), so the primary token of the second document is never
stored — the claim's "processing continues with the remaining documents"
fails. -/
theorem builder_no_token_counterexample :
    (buildLoop cfgX (initRec "P") [docNone, docA]).evc1 = none ∧
    ¬ (buildLoop cfgX (initRec "P") [docNone, docA]).evc1 = some ("1.EVCTAG.A.") := by
  decide

/-- Claim C3 as amended: the builder never fails hard (it is a total
function: the TypeError raised on a token-less document is caught at the
builder level), and a document with no extractable field leaves the
Record unchanged; but a document yielding no circuit token terminates
the per-order loop, skipping all remaining documents, rather than
continuing. -/
theorem builder_no_token_aborts (cfg : BuildCfg) (r : Rec) (d : Doc)
    (ds : List Doc) (h : d.cir = none) :
    buildLoop cfg r (d :: ds) = applyExtract r d ∧
    (d.date_info = none → d.contact_name = none → d.contact_phone = none →
      d.contact_email = none → buildLoop cfg r (d :: ds) = r) := by
  constructor
  · simp [buildLoop, h]
  · intro h1 h2 h3 h4
    simp [buildLoop, h, applyExtract, h1, h2, h3, h4, truthy]

/-- Claim C3 amended-theorem witness: the loop on a field-less document
followed by a primary-token document returns the record unchanged. -/
theorem builder_no_token_aborts_witness :
    buildLoop cfgX (initRec "P") [docNone, docA] = applyExtract (initRec "P") docNone ∧
    buildLoop cfgX (initRec "P") [docNone, docA] = initRec "P" :=
  ⟨(builder_no_token_aborts cfgX (initRec "P") docNone [docA] rfl).1,
   (builder_no_token_aborts cfgX (initRec "P") docNone [docA] rfl).2 rfl rfl rfl rfl⟩

/-! ### Enrichment lemmas -/

theorem getCvlan_ok_non_single (rows : List String) (t : String) (s : List String)
    (h : rows.length ≠ 1) : getCvlan (Except.ok rows) t s = (none, s) := by
  cases rows with
  | nil => rfl
  | cons x xs =>
    cases xs with
    | nil => simp at h
    | cons y ys => rfl

theorem getCvlan_ok_single (x : String) (t : String) (s : List String) :
    getCvlan (Except.ok [x]) t s = (some x, s) := rfl

theorem addCvlanRecord_fst (query : Query) (v : Rec) (susp : List String) :
    (addCvlanRecord query v susp).1 = v ∨
    ∃ t, (addCvlanRecord query v susp).1 = { v with cvlan := some t } := by
  simp only [addCvlanRecord]
  split
  · exact Or.inl rfl
  · exact Or.inr ⟨_, rfl⟩

/-! ### Claim C4 -/

/-- Claim C4 counterexample: the reference table `lookupDup` has two rows
matching tower `T` and circuit `E`, yet after enrichment the
suspicious-towers list is empty — a multi-row match does NOT append the
identifier, contradicting the claim (only a raised lookup error
appends). -/
theorem cvlan_multi_match_counterexample :
    1 < (filterCvlan lookupDup "T" (some ("E"))).length ∧
    (add_cvlan_data (tableQuery lookupDup) [("T", recT)]).2 = [] ∧
    ¬ "T" ∈ (add_cvlan_data (tableQuery lookupDup) [("T", recT)]).2 := by
  decide

/-- Claim C4 as amended: a query returning more than one matching row
leaves the slot tag absent but does NOT append the identifier to the
suspicious list; only a raised lookup error leaves the tag absent AND
appends the identifier.  The third conjunct lifts this to the enrichment
entry point: a single-record collection whose two slot queries both
return multiple rows comes back unchanged with an empty suspicious
list. -/
theorem cvlan_ambiguity_handling :
    (∀ (rows : List String) (tower : String) (susp : List String),
      1 < rows.length → getCvlan (Except.ok rows) tower susp = (none, susp)) ∧
    (∀ (tower : String) (susp : List String),
      getCvlan (Except.error ()) tower susp = (none, susp ++ [tower])) ∧
    (∀ (query : Query) (k : String) (v : Rec) (rows1 rows2 : List String),
      query v.tower_name v.evc1 = Except.ok rows1 → 1 < rows1.length →
      query v.tower_name v.evc2 = Except.ok rows2 → 1 < rows2.length →
      add_cvlan_data query [(k, v)] = ([(k, v)], [])) := by
  refine ⟨fun rows t s h => getCvlan_ok_non_single rows t s (by omega),
    fun t s => rfl, fun query k v rows1 rows2 hq1 hl1 hq2 hl2 => ?_⟩
  simp only [add_cvlan_data, addCvlanList, addCvlanRecord, hq1, hq2]
  rw [getCvlan_ok_non_single rows1 _ _ (by omega),
    getCvlan_ok_non_single rows2 _ _ (by omega)]
  simp [combineCvlan, orEmpty, stripSlash]

/-- Claim C4 amended-theorem witness: concrete instances of all three
conjuncts, at the duplicate-row table for the multi-match cases. -/
theorem cvlan_ambiguity_handling_witness :
    getCvlan (Except.ok ["10", "11"]) "T" [] = (none, []) ∧
    getCvlan (Except.error ()) "T" [] = (none, ["T"]) ∧
    add_cvlan_data (tableQuery lookupDup2) [("T", recTT)] = ([("T", recTT)], []) :=
  ⟨cvlan_ambiguity_handling.1 ["10", "11"] "T" [] (by decide),
   cvlan_ambiguity_handling.2.1 "T" [],
   cvlan_ambiguity_handling.2.2 (tableQuery lookupDup2) "T" recTT
     ["10", "11"] ["20", "21"] rfl (by decide) rfl (by decide)⟩

/-! ### Claim C6 -/

/-- Claim C6: the two slot tags are combined with the `/` separator and
stripped; a sole tag `"10"` yields the composite exactly `"10"`, and two
absent tags leave the `cvlan` key unset (the record comes back with its
`cvlan` still `none`). -/
theorem cvlan_combination (query : Query) (k : String) (v : Rec) :
    (query v.tower_name v.evc1 = Except.ok ["10"] →
      ∀ rows2, query v.tower_name v.evc2 = Except.ok rows2 → rows2.length ≠ 1 →
      (add_cvlan_data query [(k, v)]).1 = [(k, { v with cvlan := some ("10") })]) ∧
    (v.cvlan = none →
      ∀ rows1 rows2, query v.tower_name v.evc1 = Except.ok rows1 → rows1.length ≠ 1 →
      query v.tower_name v.evc2 = Except.ok rows2 → rows2.length ≠ 1 →
      (add_cvlan_data query [(k, v)]).1 = [(k, v)]) := by
  constructor
  · intro hq1 rows2 hq2 hl2
    simp only [add_cvlan_data, addCvlanList, addCvlanRecord, hq1, hq2]
    rw [getCvlan_ok_single, getCvlan_ok_non_single rows2 _ _ hl2]
    simp [combineCvlan, orEmpty, stripSlash]
  · intro hv rows1 rows2 hq1 hl1 hq2 hl2
    simp only [add_cvlan_data, addCvlanList, addCvlanRecord, hq1, hq2]
    rw [getCvlan_ok_non_single rows1 _ _ hl1,
      getCvlan_ok_non_single rows2 _ _ hl2]
    simp [combineCvlan, orEmpty, stripSlash]

/-- Claim C6 witness: slot A resolves to `"10"` and slot B is absent on a
one-row table, giving composite exactly `"10"`; on the duplicate-row
table both slots resolve absent and the record is unchanged. -/
theorem cvlan_combination_witness :
    (add_cvlan_data (tableQuery lookupOne) [("T", recT)]).1 =
      [("T", { recT with cvlan := some ("10") })] ∧
    (add_cvlan_data (tableQuery lookupDup2) [("T", recTT)]).1 = [("T", recTT)] :=
  ⟨(cvlan_combination (tableQuery lookupOne) "T" recT).1 rfl [] rfl (by decide),
   (cvlan_combination (tableQuery lookupDup2) "T" recTT).2 rfl
      ["10", "11"] ["20", "21"] rfl (by decide) rfl (by decide)⟩

/-! ### Field addition (frame) infrastructure -/

/-- `w` extends `v`: the identity is unchanged and every field present in
`v` (a `some` named field, or an address column) is still present in `w`. -/
def fieldAdditionOnly (v w : Rec) : Prop :=
  w.tower_name = v.tower_name ∧
  (v.evc1.isSome → w.evc1.isSome) ∧
  (v.evc2.isSome → w.evc2.isSome) ∧
  (v.uni.isSome → w.uni.isSome) ∧
  (v.contact_name.isSome → w.contact_name.isSome) ∧
  (v.contact_phone.isSome → w.contact_phone.isSome) ∧
  (v.contact_email.isSome → w.contact_email.isSome) ∧
  (v.date_sent.isSome → w.date_sent.isSome) ∧
  (v.cvlan.isSome → w.cvlan.isSome) ∧
  (∀ a ∈ v.addr.map Prod.fst, a ∈ w.addr.map Prod.fst)

theorem fieldAdditionOnly_refl (v : Rec) : fieldAdditionOnly v v :=
  ⟨rfl, id, id, id, id, id, id, id, id, fun _ h => h⟩

theorem fieldAdditionOnly_trans (u v w : Rec) (h1 : fieldAdditionOnly u v)
    (h2 : fieldAdditionOnly v w) : fieldAdditionOnly u w := by
  obtain ⟨a1, b1, c1, d1, e1, f1, g1, i1, j1, k1⟩ := h1
  obtain ⟨a2, b2, c2, d2, e2, f2, g2, i2, j2, k2⟩ := h2
  exact ⟨a2.trans a1, fun h => b2 (b1 h), fun h => c2 (c1 h), fun h => d2 (d1 h),
    fun h => e2 (e1 h), fun h => f2 (f1 h), fun h => g2 (g1 h),
    fun h => i2 (i1 h), fun h => j2 (j1 h), fun a h => k2 a (k1 a h)⟩

theorem addCvlanRecord_addition (query : Query) (v : Rec) (susp : List String) :
    fieldAdditionOnly v (addCvlanRecord query v susp).1 ∧
    (addCvlanRecord query v susp).1.addr = v.addr := by
  rcases addCvlanRecord_fst query v susp with h | ⟨t, h⟩ <;> rw [h]
  · exact ⟨fieldAdditionOnly_refl v, rfl⟩
  · exact ⟨⟨rfl, id, id, id, id, id, id, id, fun _ => rfl, fun _ h => h⟩, rfl⟩

theorem addCvlanList_forall2 (query : Query) (pd : List (String × Rec))
    (susp : List String) :
    List.Forall₂
      (fun a b => a.1 = b.1 ∧ fieldAdditionOnly a.2 b.2 ∧ b.2.addr = a.2.addr)
      pd (addCvlanList query pd susp).1 := by
  induction pd generalizing susp with
  | nil => exact List.Forall₂.nil
  | cons kv rest ih =>
    simp only [addCvlanList]
    exact List.Forall₂.cons
      ⟨rfl, (addCvlanRecord_addition query kv.2 susp).1,
        (addCvlanRecord_addition query kv.2 susp).2⟩
      (ih _)

theorem addAddress_entry_addition (v : Rec) (row : List (String × String))
    (hv : "Site Name" ∉ v.addr.map Prod.fst) :
    fieldAdditionOnly v { v with addr := dictPop (dictUpdate v.addr row) "Site Name" } := by
  refine ⟨rfl, id, id, id, id, id, id, id, id, fun a ha => ?_⟩
  have hne : a ≠ "Site Name" := fun he => hv (he ▸ ha)
  exact (mem_keys_dictPop _ _ a).mpr ⟨mem_keys_dictUpdate row v.addr a ha, hne⟩

theorem add_address_data_forall2 (df : List (List (String × String)))
    (pd : List (String × Rec))
    (h : ∀ kv ∈ pd, "Site Name" ∉ kv.2.addr.map Prod.fst) :
    List.Forall₂ (fun a b => a.1 = b.1 ∧ fieldAdditionOnly a.2 b.2)
      pd (add_address_data df pd) := by
  induction pd with
  | nil => exact List.Forall₂.nil
  | cons kv rest ih =>
    simp only [add_address_data, List.map_cons]
    refine List.Forall₂.cons ?_ (ih (fun p hp => h p (List.mem_cons_of_mem _ hp)))
    cases hf : df.find? (fun row => dictGet row "Site Name" == some kv.1) with
    | none => exact ⟨rfl, fieldAdditionOnly_refl kv.2⟩
    | some row =>
      exact ⟨rfl, addAddress_entry_addition kv.2 row (h kv (List.mem_cons_self _ _))⟩

theorem forall2_trans {α : Type} {R1 R2 R3 : α → α → Prop}
    (h : ∀ a b c, R1 a b → R2 b c → R3 a c) :
    ∀ (l m n : List α), List.Forall₂ R1 l m → List.Forall₂ R2 m n →
      List.Forall₂ R3 l n := by
  intro l m n h1 h2
  induction h1 generalizing n with
  | nil =>
    cases h2
    exact List.Forall₂.nil
  | cons hr _ ih =>
    cases h2 with
    | cons hr2 ht2 => exact List.Forall₂.cons (h _ _ _ hr hr2) (ih _ ht2)

theorem forall2_mem_right {α β : Type} {R : α → β → Prop} :
    ∀ (l : List α) (m : List β), List.Forall₂ R l m → ∀ b ∈ m, ∃ a ∈ l, R a b := by
  intro l m h
  induction h with
  | nil => simp
  | cons hr _ ih =>
    intro b hb
    rcases List.mem_cons.mp hb with hb | hb
    · exact ⟨_, List.mem_cons_self _ _, hb ▸ hr⟩
    · rcases ih b hb with ⟨a, ha, har⟩
      exact ⟨a, List.mem_cons_of_mem _ ha, har⟩

/-! ### Claim C9 -/

/-- Claim C9: enrichment (`add_cvlan_data` then `add_address_data`) maps
each input Record to an output Record with the same key, only ever adding
fields: every field present in the input Record is present in the output
(and the identity is unchanged).  Mutation-freedom of the Python code is
the `deepcopy` at the top of both functions, modelled here by value
semantics: the input collection is untouched and a new collection is
returned.  The hypothesis that no input Record carries a `"Site Name"`
address column holds for every Record the pipeline builds (the column is
stripped on merge and never stored). -/
theorem enrichment_addition_only (query : Query)
    (df : List (List (String × String))) (pd : List (String × Rec))
    (h : ∀ kv ∈ pd, "Site Name" ∉ kv.2.addr.map Prod.fst) :
    List.Forall₂ (fun a b => a.1 = b.1 ∧ fieldAdditionOnly a.2 b.2)
      pd (add_address_data df (add_cvlan_data query pd).1) := by
  have h1 := addCvlanList_forall2 query pd []
  have hmid : ∀ kv ∈ (add_cvlan_data query pd).1,
      "Site Name" ∉ kv.2.addr.map Prod.fst := by
    intro kv hkv
    rcases forall2_mem_right pd (add_cvlan_data query pd).1 h1 kv hkv
      with ⟨a, ha, _, _, haddr⟩
    rw [haddr]
    exact h a ha
  have h2 := add_address_data_forall2 df (add_cvlan_data query pd).1 hmid
  exact forall2_trans
    (fun a b c hab hbc =>
      ⟨hab.1.trans hbc.1, fieldAdditionOnly_trans _ _ _ hab.2.1 hbc.2⟩)
    _ _ _ h1 h2

/-- Claim C9 witness: enriching the one-record collection for tower `T`
over the one-row table keeps the key and only adds fields. -/
theorem enrichment_addition_only_witness :
    List.Forall₂ (fun (a : String × Rec) b => a.1 = b.1 ∧ fieldAdditionOnly a.2 b.2)
      [("T", recT)]
      (add_address_data [] (add_cvlan_data (tableQuery lookupOne) [("T", recT)]).1) :=
  enrichment_addition_only (tableQuery lookupOne) [] [("T", recT)]
    (by intro kv hkv; simp at hkv; rw [hkv]; simp [recT, initRec])

/-! ### Claim C10 -/

theorem buildLoop_addr (cfg : BuildCfg) (docs : List Doc) (r : Rec) :
    (buildLoop cfg r docs).addr = r.addr := by
  induction docs generalizing r with
  | nil => rfl
  | cons d ds ih =>
    simp only [buildLoop]
    cases hc : d.cir with
    | none => simp [applyExtract_eq]
    | some c =>
      rw [ih]
      rw [(applyCircuit_frame cfg (applyExtract r d) c).2.2.2]
      simp [applyExtract_eq]

theorem create_full_dict_pred (cfg : BuildCfg) (P : String × Rec → Prop)
    (hP : ∀ (p : String) (docs : List Doc), P (p, buildLoop cfg (initRec p) docs))
    (dirs : List (String × List Doc)) (acc : List (String × Rec))
    (hacc : ∀ kv ∈ acc, P kv) :
    ∀ kv ∈ dirs.foldl
      (fun acc pr => dictUpdate acc (create_pon_dict cfg pr.1 pr.2)) acc, P kv := by
  induction dirs generalizing acc with
  | nil => simpa using hacc
  | cons pr dirs ih =>
    simp only [List.foldl_cons]
    refine ih _ (fun kv hkv => ?_)
    have heq : dictUpdate acc (create_pon_dict cfg pr.1 pr.2) =
        dictSet acc pr.1 (buildLoop cfg (initRec pr.1) pr.2) := rfl
    rw [heq] at hkv
    rcases mem_dictSet acc pr.1 _ kv hkv with h | h
    · exact hacc kv h
    · rw [h]
      exact hP pr.1 pr.2

/-- Claim C10: every record in the collection built by
`create_full_dict` has its `tower_name` field equal to the order-id key
it is stored under, and this identity survives both enrichment passes —
so the CVLAN queries (keyed by `value["tower_name"]`) and the
classifier's tower-match filter (keyed by the dict key) always use the
same identity for a given record. -/
theorem tower_name_key_invariant (cfg : BuildCfg) (dirs : List (String × List Doc))
    (query : Query) (df : List (List (String × String))) :
    (∀ kv ∈ create_full_dict cfg dirs, kv.2.tower_name = kv.1) ∧
    (∀ kv ∈ (add_cvlan_data query (create_full_dict cfg dirs)).1,
      kv.2.tower_name = kv.1) ∧
    (∀ kv ∈ add_address_data df
        (add_cvlan_data query (create_full_dict cfg dirs)).1,
      kv.2.tower_name = kv.1) := by
  have h0 : ∀ kv ∈ create_full_dict cfg dirs, kv.2.tower_name = kv.1 :=
    create_full_dict_pred cfg (fun kv => kv.2.tower_name = kv.1)
      (fun p docs => buildLoop_tower cfg docs (initRec p)) dirs [] (by simp)
  have haddr0 : ∀ kv ∈ create_full_dict cfg dirs, kv.2.addr = [] :=
    create_full_dict_pred cfg (fun kv => kv.2.addr = [])
      (fun p docs => buildLoop_addr cfg docs (initRec p)) dirs [] (by simp)
  have h1 : ∀ kv ∈ (add_cvlan_data query (create_full_dict cfg dirs)).1,
      kv.2.tower_name = kv.1 := by
    intro kv hkv
    rcases forall2_mem_right _ _
      (addCvlanList_forall2 query (create_full_dict cfg dirs) []) kv hkv
      with ⟨a, ha, hk, hadd, _⟩
    rw [hadd.1, ← hk]
    exact h0 a ha
  have hmid : ∀ kv ∈ (add_cvlan_data query (create_full_dict cfg dirs)).1,
      "Site Name" ∉ kv.2.addr.map Prod.fst := by
    intro kv hkv
    rcases forall2_mem_right _ _
      (addCvlanList_forall2 query (create_full_dict cfg dirs) []) kv hkv
      with ⟨a, ha, _, _, haddr⟩
    rw [haddr, haddr0 a ha]
    simp
  refine ⟨h0, h1, fun kv hkv => ?_⟩
  rcases forall2_mem_right _ _
    (add_address_data_forall2 df
      (add_cvlan_data query (create_full_dict cfg dirs)).1 hmid) kv hkv
    with ⟨a, ha, hk, hadd⟩
  rw [hadd.1, ← hk]
  exact h1 a ha

/-- Claim C10 witness: the invariant evaluated on a concrete one-order
directory listing. -/
theorem tower_name_key_invariant_witness :
    ("PON_1234", buildLoop cfgX (initRec "PON_1234") [docDate1, docUni1]) ∈
      create_full_dict cfgX [("PON_1234", [docDate1, docUni1])] ∧
    (buildLoop cfgX (initRec "PON_1234") [docDate1, docUni1]).tower_name =
      "PON_1234" :=
  ⟨by decide,
   (tower_name_key_invariant cfgX [("PON_1234", [docDate1, docUni1])]
      (tableQuery lookupX) []).1
     ("PON_1234", buildLoop cfgX (initRec "PON_1234") [docDate1, docUni1])
     (by decide)⟩

/-! ### Classifier lemmas -/

theorem getBucket_bucketInsert (c : Classified) (b b' : Bucket) (k : String)
    (v : Rec) :
    getBucket (bucketInsert c b k v) b' =
      if b' = b then dictSet (getBucket c b) k v else getBucket c b' := by
  cases b <;> cases b' <;> simp [bucketInsert, getBucket]

theorem sortByTypeAux_not_mem (lookup : List LookupRow) (pd : List (String × Rec))
    (c : Classified) (k : String) (hk : k ∉ pd.map Prod.fst) (b : Bucket) :
    dictGet (getBucket (sortByTypeAux lookup pd c) b) k =
      dictGet (getBucket c b) k := by
  induction pd generalizing c with
  | nil => rfl
  | cons kv rest ih =>
    simp only [List.map_cons, List.mem_cons, not_or] at hk
    simp only [sortByTypeAux]
    rw [ih _ hk.2, getBucket_bucketInsert]
    split
    · next hb => rw [dictGet_dictSet, if_neg hk.1, hb]
    · rfl

theorem sortByTypeAux_mem (lookup : List LookupRow) (pd : List (String × Rec))
    (c : Classified) (k : String) (v : Rec)
    (hnd : (pd.map Prod.fst).Nodup) (hm : (k, v) ∈ pd) (b : Bucket) :
    dictGet (getBucket (sortByTypeAux lookup pd c) b) k =
      if b = classifyLeaf (towerMatchCount lookup k)
          (truthy v.uni) (truthy v.evc1) (truthy v.evc2)
      then some v else dictGet (getBucket c b) k := by
  induction pd generalizing c with
  | nil => simp at hm
  | cons kv rest ih =>
    simp only [List.map_cons, List.nodup_cons] at hnd
    rcases List.mem_cons.mp hm with h | h
    · subst h
      have hk : k ∉ rest.map Prod.fst := by simpa using hnd.1
      simp only [sortByTypeAux]
      rw [sortByTypeAux_not_mem lookup rest _ k hk, getBucket_bucketInsert]
      split
      · rw [dictGet_dictSet, if_pos rfl]
      · rfl
    · have hk : kv.1 ≠ k := by
        intro he
        exact hnd.1 (he ▸ List.mem_map.mpr ⟨(k, v), h, rfl⟩)
      simp only [sortByTypeAux]
      rw [ih _ hnd.2 h, getBucket_bucketInsert]
      split
      · rfl
      · split
        · next hb => rw [dictGet_dictSet, if_neg (fun he => hk he.symm), hb]
        · rfl

/-! ### Claim C1 -/

/-- Claim C1: classification is a pure function `classifyLeaf` of the
tower match count and the truthiness of `uni` (has_access), `evc1`
(has_p), `evc2` (has_s); each record of a nodup-keyed collection lands in
exactly the bucket `classifyLeaf` names and in no other; and
`classifyLeaf` realizes the spec's decision table: for count > 2 all
three present give `pdisc.unievc`, both EVCs without access give
`pdisc.vlan`, anything else `no_type`; for count ≤ 2 all three present
give `fdisc`, anything else `no_type`. -/
theorem classifier_decision_table (lookup : List LookupRow)
    (pd : List (String × Rec)) (hnd : (pd.map Prod.fst).Nodup)
    (k : String) (v : Rec) (hm : (k, v) ∈ pd) :
    (dictGet
        (getBucket (sort_by_type lookup pd)
          (classifyLeaf (towerMatchCount lookup k)
            (truthy v.uni) (truthy v.evc1) (truthy v.evc2))) k = some v ∧
      ∀ b, b ≠ classifyLeaf (towerMatchCount lookup k)
          (truthy v.uni) (truthy v.evc1) (truthy v.evc2) →
        dictGet (getBucket (sort_by_type lookup pd) b) k = none) ∧
    (∀ (n : Nat) (u e1 e2 : Bool),
      (2 < n → (u && e1 && e2) = true → classifyLeaf n u e1 e2 = Bucket.unievc) ∧
      (2 < n → (e1 && e2 && !u) = true → classifyLeaf n u e1 e2 = Bucket.vlan) ∧
      (2 < n → (u && e1 && e2) = false → (e1 && e2 && !u) = false →
        classifyLeaf n u e1 e2 = Bucket.no_type) ∧
      (¬ 2 < n → (u && e1 && e2) = true → classifyLeaf n u e1 e2 = Bucket.fdisc) ∧
      (¬ 2 < n → (u && e1 && e2) = false →
        classifyLeaf n u e1 e2 = Bucket.no_type)) := by
  constructor
  · constructor
    · rw [sort_by_type, sortByTypeAux_mem lookup pd emptyClassified k v hnd hm,
        if_pos rfl]
    · intro b hb
      rw [sort_by_type, sortByTypeAux_mem lookup pd emptyClassified k v hnd hm,
        if_neg hb]
      cases b <;> rfl
  · intro n u e1 e2
    by_cases hn : 2 < n <;>
      cases u <;> cases e1 <;> cases e2 <;> simp [classifyLeaf, hn]

/-- Claim C1 witness: the concrete `PON_1234` record of the end-to-end
scenario is classified as `no_type` (its `evc2` is absent) and appears in
no other bucket. -/
theorem classifier_decision_table_witness :
    dictGet (getBucket (sort_by_type lookupX [("PON_1234", recPON1234)])
      Bucket.no_type) "PON_1234" = some recPON1234 ∧
    dictGet (getBucket (sort_by_type lookupX [("PON_1234", recPON1234)])
      Bucket.unievc) "PON_1234" = none := by
  have h := classifier_decision_table lookupX [("PON_1234", recPON1234)]
    (by decide) "PON_1234" recPON1234 (by decide)
  exact ⟨h.1.1, h.1.2 Bucket.unievc (by decide)⟩

/-! ### Claim C5 -/

/-- The full pipeline on the end-to-end scenario input: order id
`PON_1234` with tower match count 3 in `lookupX`, one document yielding
primary token `1.EVCTAG.X.` and the sent-date `01-02-2024`, a second
yielding access token `1.UNITAG.Y.`. -/
def pipelineX : Grouping :=
  sort_by_date (sort_by_type lookupX
    (add_address_data []
      (add_cvlan_data (tableQuery lookupX)
        (create_full_dict cfgX [("PON_1234", [docDate1, docUni1])])).1))

/-- Claim C5 counterexample: on the scenario input the `pdisc.unievc`
section of the final grouping is empty — the record does NOT land in
`category_A.subtype_2`, because the classifier requires `evc2` as well
and the scenario yields no second primary-family token. -/
theorem scenario_unievc_counterexample :
    dictGet pipelineX "unievc" = some [] ∧
    lookup2 ((dictGet pipelineX "unievc").getD []) "01-02-2024" "PON_1234" =
      none := by
  decide

/-- Claim C5 as amended: the scenario record lands in `no_type`
(unclassified), grouped under date key `01-02-2024`. -/
theorem scenario_lands_in_no_type :
    lookup2 ((dictGet pipelineX "no_type").getD []) "01-02-2024" "PON_1234" =
      some recPON1234 := by
  decide

/-! ### Grouper lemmas -/

theorem dictGet_some_mem_keys {α : Type} (t : List (String × α)) (k : String)
    (g : α) (h : dictGet t k = some g) : k ∈ t.map Prod.fst :=
  List.mem_map.mpr ⟨(k, g), dictGet_mem t k g h, rfl⟩

theorem dictSet_append_singleton {α : Type} (t0 : List (String × α)) (d : String)
    (g x : α) (h : d ∉ t0.map Prod.fst) :
    dictSet (t0 ++ [(d, g)]) d x = t0 ++ [(d, x)] := by
  induction t0 with
  | nil => simp [dictSet]
  | cons q t0 ih =>
    simp only [List.map_cons, List.mem_cons, not_or] at h
    have hc : (q :: t0) ++ [(d, g)] = q :: (t0 ++ [(d, g)]) := rfl
    rw [hc]
    simp only [dictSet]
    rw [if_neg (fun he => h.1 (Eq.symm he)), ih h.2]
    rfl

theorem dictGet_setIn_self (t : Section) (d k : String) (v : Rec) :
    dictGet (setIn t d k v) d = some (dictSet ((dictGet t d).getD []) k v) := by
  unfold setIn
  cases hg : dictGet t d with
  | none =>
    rw [dictGet_append, hg]
    simp [dictGet, dictSet]
  | some grp =>
    rw [dictGet_dictSet, if_pos rfl]
    rfl

theorem dictGet_setIn_other (t : Section) (d k : String) (v : Rec) (d' : String)
    (h : d' ≠ d) : dictGet (setIn t d k v) d' = dictGet t d' := by
  unfold setIn
  cases hg : dictGet t d with
  | none =>
    rw [dictGet_append]
    cases hg' : dictGet t d' with
    | none => simp [dictGet, Ne.symm h]
    | some grp => rfl
  | some grp =>
    rw [dictGet_dictSet, if_neg h]

theorem lookup2_setIn (t : Section) (d k : String) (v : Rec) (d' k' : String) :
    lookup2 (setIn t d k v) d' k' =
      if d' = d ∧ k' = k then some v else lookup2 t d' k' := by
  by_cases hd : d' = d
  · subst hd
    unfold lookup2
    rw [dictGet_setIn_self]
    dsimp only
    rw [dictGet_dictSet]
    by_cases hk : k' = k
    · simp [hk]
    · simp only [hk, and_false, if_false, if_neg hk]
      cases hg : dictGet t d' <;> simp [dictGet]
  · unfold lookup2
    rw [dictGet_setIn_other t d k v d' hd]
    simp [hd]

theorem group_entries_cons_truthy (kv : String × Rec) (rest : List (String × Rec))
    (t : Section) (d : String) (h : kv.2.date_sent = some d) (hd : d ≠ "") :
    group_entries (kv :: rest) t = group_entries rest (setIn t d kv.1 kv.2) := by
  simp [group_entries, h, hd]

theorem group_entries_cons_dateless (kv : String × Rec)
    (rest : List (String × Rec)) (t : Section)
    (h : truthy kv.2.date_sent = false) :
    group_entries (kv :: rest) t = group_entries rest t := by
  cases hds : kv.2.date_sent with
  | none => simp [group_entries, hds]
  | some s =>
    rw [hds] at h
    simp only [truthy, Bool.not_eq_false'] at h
    have hs : s = "" := by simpa using h
    simp [group_entries, hds, hs]

theorem group_entries_append (a b : List (String × Rec)) (t : Section) :
    group_entries (a ++ b) t = group_entries b (group_entries a t) := by
  induction a generalizing t with
  | nil => rfl
  | cons kv rest ih =>
    have hc : (kv :: rest) ++ b = kv :: (rest ++ b) := rfl
    rw [hc]
    simp only [group_entries]
    rw [ih]

theorem group_entries_lookup_not_mem (es : List (String × Rec)) (t : Section)
    (k : String) (hk : k ∉ es.map Prod.fst) (d : String) :
    lookup2 (group_entries es t) d k = lookup2 t d k := by
  induction es generalizing t with
  | nil => rfl
  | cons kv rest ih =>
    simp only [List.map_cons, List.mem_cons, not_or] at hk
    simp only [group_entries]
    rw [ih _ hk.2]
    cases hds : kv.2.date_sent with
    | none => rfl
    | some s =>
      by_cases hs : s = ""
      · simp [hs]
      · dsimp only
        rw [if_neg hs, lookup2_setIn, if_neg (fun hc => hk.1 hc.2)]

theorem group_entries_lookup_mem (es : List (String × Rec)) (t : Section)
    (k : String) (v : Rec) (d0 : String)
    (hnd : (es.map Prod.fst).Nodup) (hm : (k, v) ∈ es)
    (hds : v.date_sent = some d0) (hd0 : d0 ≠ "") (d : String) :
    lookup2 (group_entries es t) d k =
      if d = d0 then some v else lookup2 t d k := by
  induction es generalizing t with
  | nil => simp at hm
  | cons kv rest ih =>
    simp only [List.map_cons, List.nodup_cons] at hnd
    rcases List.mem_cons.mp hm with h | h
    · subst h
      have hk : k ∉ rest.map Prod.fst := by simpa using hnd.1
      rw [group_entries_cons_truthy (k, v) rest t d0 hds hd0,
        group_entries_lookup_not_mem rest _ k hk, lookup2_setIn]
      by_cases hd : d = d0
      · simp [hd]
      · simp [hd]
    · have hk : kv.1 ≠ k := by
        intro he
        exact hnd.1 (he ▸ List.mem_map.mpr ⟨(k, v), h, rfl⟩)
      simp only [group_entries]
      rw [ih _ hnd.2 h]
      by_cases hd : d = d0
      · simp [hd]
      · rw [if_neg hd, if_neg hd]
        cases hdk : kv.2.date_sent with
        | none => rfl
        | some s =>
          by_cases hs : s = ""
          · simp [hs]
          · dsimp only
            rw [if_neg hs, lookup2_setIn, if_neg (fun hc => hk hc.2.symm)]

theorem group_entries_lookup_dateless (es : List (String × Rec)) (t : Section)
    (k : String) (v : Rec) (hnd : (es.map Prod.fst).Nodup) (hm : (k, v) ∈ es)
    (hfalse : truthy v.date_sent = false) (d : String) :
    lookup2 (group_entries es t) d k = lookup2 t d k := by
  induction es generalizing t with
  | nil => simp at hm
  | cons kv rest ih =>
    simp only [List.map_cons, List.nodup_cons] at hnd
    rcases List.mem_cons.mp hm with h | h
    · subst h
      have hk : k ∉ rest.map Prod.fst := by simpa using hnd.1
      rw [group_entries_cons_dateless (k, v) rest t hfalse,
        group_entries_lookup_not_mem rest _ k hk]
    · have hk : kv.1 ≠ k := by
        intro he
        exact hnd.1 (he ▸ List.mem_map.mpr ⟨(k, v), h, rfl⟩)
      simp only [group_entries]
      rw [ih _ hnd.2 h]
      cases hdk : kv.2.date_sent with
      | none => rfl
      | some s =>
        by_cases hs : s = ""
        · simp [hs]
        · dsimp only
          rw [if_neg hs, lookup2_setIn, if_neg (fun hc => hk hc.2.symm)]

/-- A well-formed date group: nonempty, nodup keys, a truthy date, and
every record in it carries exactly that date. -/
def goodGroup (d : String) (grp : List (String × Rec)) : Prop :=
  d ≠ "" ∧ grp ≠ [] ∧ (grp.map Prod.fst).Nodup ∧
  ∀ kv ∈ grp, kv.2.date_sent = some d

/-- A well-formed section grouping: nodup dates, all groups
well-formed. -/
def goodSection (t : Section) : Prop :=
  (t.map Prod.fst).Nodup ∧ ∀ p ∈ t, goodGroup p.1 p.2

theorem goodSection_setIn (t : Section) (d k : String) (v : Rec)
    (ht : goodSection t) (hd : d ≠ "") (hv : v.date_sent = some d) :
    goodSection (setIn t d k v) := by
  unfold setIn
  cases hg : dictGet t d with
  | none =>
    have hdk : d ∉ t.map Prod.fst := (dictGet_eq_none_iff t d).mp hg
    constructor
    · rw [List.map_append, List.nodup_append]
      refine ⟨ht.1, by simp, ?_⟩
      intro a ha hb
      have had : a = d := by simpa using hb
      exact hdk (had ▸ ha)
    · intro p hp
      rcases List.mem_append.mp hp with hp | hp
      · exact ht.2 p hp
      · have : p = (d, [(k, v)]) := by simpa using hp
        rw [this]
        exact ⟨hd, by simp, by simp, by simpa using hv⟩
  | some grp =>
    have hmem : (d, grp) ∈ t := dictGet_mem t d grp hg
    have hgg : goodGroup d grp := ht.2 (d, grp) hmem
    constructor
    · rw [keys_dictSet_of_mem t d _ (dictGet_some_mem_keys t d grp hg)]
      exact ht.1
    · intro p hp
      rcases mem_dictSet t d _ p hp with hp' | hp'
      · exact ht.2 p hp'
      · rw [hp']
        refine ⟨hd, dictSet_ne_nil grp k v, keys_nodup_dictSet grp k v hgg.2.2.1,
          fun kv hkv => ?_⟩
        rcases mem_dictSet grp k v kv hkv with h | h
        · exact hgg.2.2.2 kv h
        · rw [h]
          exact hv

theorem goodSection_group_entries (es : List (String × Rec)) (t : Section)
    (ht : goodSection t) : goodSection (group_entries es t) := by
  induction es generalizing t with
  | nil => exact ht
  | cons kv rest ih =>
    simp only [group_entries]
    cases hds : kv.2.date_sent with
    | none => exact ih t ht
    | some s =>
      by_cases hs : s = ""
      · simp only [hs, if_pos rfl]
        exact ih t ht
      · dsimp only
        rw [if_neg hs]
        exact ih _ (goodSection_setIn t s kv.1 kv.2 ht hs hds)

theorem group_entries_homog_aux (d : String) (es : List (String × Rec)) :
    ∀ (t0 : Section) (pre : List (String × Rec)),
      (∀ kv ∈ es, kv.2.date_sent = some d) → d ≠ "" → d ∉ t0.map Prod.fst →
      ((pre ++ es).map Prod.fst).Nodup →
      group_entries es (t0 ++ [(d, pre)]) = t0 ++ [(d, pre ++ es)] := by
  induction es with
  | nil =>
    intro t0 pre _ _ _ _
    simp [group_entries]
  | cons kv rest ih =>
    intro t0 pre hdate hd hd0 hnd
    rw [group_entries_cons_truthy kv rest _ d
      (hdate kv (List.mem_cons_self _ _)) hd]
    have hk1 : kv.1 ∉ pre.map Prod.fst := by
      rw [List.map_append, List.nodup_append] at hnd
      intro hc
      exact hnd.2.2 hc (by simp)
    have hget : dictGet (t0 ++ [(d, pre)]) d = some pre := by
      rw [dictGet_append, (dictGet_eq_none_iff t0 d).mpr hd0]
      simp [dictGet]
    have hset : setIn (t0 ++ [(d, pre)]) d kv.1 kv.2 =
        t0 ++ [(d, pre ++ [kv])] := by
      unfold setIn
      rw [hget]
      dsimp only
      rw [dictSet_append_singleton t0 d pre _ hd0,
        dictSet_of_not_mem_keys pre kv.1 kv.2 hk1]
    rw [hset, ih t0 (pre ++ [kv])
      (fun p hp => hdate p (List.mem_cons_of_mem _ hp)) hd hd0
      (by simpa using hnd)]
    simp

theorem group_entries_homog (d : String) (grp : List (String × Rec))
    (t0 : Section) (hne : grp ≠ []) (hnd : (grp.map Prod.fst).Nodup)
    (hdate : ∀ kv ∈ grp, kv.2.date_sent = some d) (hd : d ≠ "")
    (hd0 : d ∉ t0.map Prod.fst) :
    group_entries grp t0 = t0 ++ [(d, grp)] := by
  cases grp with
  | nil => exact absurd rfl hne
  | cons kv rest =>
    rw [group_entries_cons_truthy kv rest _ d
      (hdate kv (List.mem_cons_self _ _)) hd]
    have hset : setIn t0 d kv.1 kv.2 = t0 ++ [(d, [kv])] := by
      unfold setIn
      rw [(dictGet_eq_none_iff t0 d).mpr hd0]
    rw [hset, group_entries_homog_aux d rest t0 [kv]
      (fun p hp => hdate p (List.mem_cons_of_mem _ hp)) hd hd0
      (by simpa using hnd)]
    rfl

theorem group_entries_rebuild :
    ∀ (gs t0 : Section), ((t0 ++ gs).map Prod.fst).Nodup →
      (∀ p ∈ gs, goodGroup p.1 p.2) →
      group_entries (flattenSection gs) t0 = t0 ++ gs := by
  intro gs
  induction gs with
  | nil =>
    intro t0 _ _
    simp [flattenSection, group_entries]
  | cons g gs ih =>
    intro t0 hnd hgood
    have hg : goodGroup g.1 g.2 := hgood g (List.mem_cons_self _ _)
    have hd0 : g.1 ∉ t0.map Prod.fst := by
      rw [List.map_append, List.nodup_append] at hnd
      intro hc
      exact hnd.2.2 hc (by simp)
    simp only [flattenSection]
    rw [group_entries_append,
      group_entries_homog g.1 g.2 t0 hg.2.1 hg.2.2.1 hg.2.2.2 hg.1 hd0]
    rw [ih (t0 ++ [(g.1, g.2)]) (by simpa using hnd)
      (fun p hp => hgood p (List.mem_cons_of_mem _ hp))]
    simp

/-! ### Claim C8 -/

/-- Claim C8: grouping is idempotent — flattening the grouped output back
into classified buckets and grouping again reproduces the grouped output
exactly. -/
theorem grouping_idempotent (c : Classified) :
    sort_by_date (flattenGrouped (sort_by_date c)) = sort_by_date c := by
  have key : ∀ es : List (String × Rec),
      group_entries (flattenSection (group_entries es [])) [] =
        group_entries es [] := by
    intro es
    have hg := goodSection_group_entries es [] ⟨by simp, by simp⟩
    exact group_entries_rebuild (group_entries es []) [] (by simpa using hg.1)
      hg.2
  have e1 : dictGet (sort_by_date c) "unievc" =
      some (group_entries c.unievc []) := rfl
  have e2 : dictGet (sort_by_date c) "vlan" =
      some (group_entries c.vlan []) := rfl
  have e3 : dictGet (sort_by_date c) "fdisc" =
      some (group_entries c.fdisc []) := rfl
  have e4 : dictGet (sort_by_date c) "no_type" =
      some (group_entries c.no_type []) := rfl
  unfold flattenGrouped
  rw [e1, e2, e3, e4]
  simp only [Option.getD_some]
  show [("unievc", group_entries (flattenSection (group_entries c.unievc [])) []),
        ("vlan", group_entries (flattenSection (group_entries c.vlan [])) []),
        ("fdisc", group_entries (flattenSection (group_entries c.fdisc [])) []),
        ("no_type", group_entries (flattenSection (group_entries c.no_type [])) [])] =
      sort_by_date c
  rw [key, key, key, key]
  rfl

/-! ### Claim C7 -/

/-- The section name each classifier bucket is grouped under
(src/app/data_processer.py lines 142-145). -/
def sectionName : Bucket → String
  | Bucket.unievc => "unievc"
  | Bucket.vlan => "vlan"
  | Bucket.fdisc => "fdisc"
  | Bucket.no_type => "no_type"

/-- Claim C7: the grouped output always has exactly the four leaf-bucket
names as top-level keys (in source order); every record appearing in the
output carries a truthy `date_sent` equal to its date-group key (so a
record with an absent date never appears anywhere); and, for nodup-keyed
buckets, every record with a truthy date appears in its bucket's section
under exactly that date key and no other. -/
theorem grouper_date_partition (c : Classified) :
    ((sort_by_date c).map Prod.fst = ["unievc", "vlan", "fdisc", "no_type"]) ∧
    (∀ name sec, (name, sec) ∈ sort_by_date c → ∀ p ∈ sec, ∀ kv ∈ p.2,
      kv.2.date_sent = some p.1 ∧ truthy kv.2.date_sent = true) ∧
    (∀ b k v d, ((getBucket c b).map Prod.fst).Nodup →
      (k, v) ∈ getBucket c b → v.date_sent = some d → d ≠ "" →
      lookup2 ((dictGet (sort_by_date c) (sectionName b)).getD []) d k =
        some v ∧
      ∀ d', d' ≠ d →
        lookup2 ((dictGet (sort_by_date c) (sectionName b)).getD []) d' k =
          none) ∧
    (∀ b k v, ((getBucket c b).map Prod.fst).Nodup →
      (k, v) ∈ getBucket c b → truthy v.date_sent = false →
      ∀ d, lookup2 ((dictGet (sort_by_date c) (sectionName b)).getD []) d k =
        none) := by
  have hsec : ∀ b, dictGet (sort_by_date c) (sectionName b) =
      some (group_entries (getBucket c b) []) := by
    intro b
    cases b <;> rfl
  refine ⟨rfl, ?_, ?_, ?_⟩
  · intro name sec hmem p hp kv hkv
    have hgood : goodSection sec := by
      rcases (by simpa [sort_by_date] using hmem :
        name = "unievc" ∧ sec = group_entries c.unievc [] ∨
        name = "vlan" ∧ sec = group_entries c.vlan [] ∨
        name = "fdisc" ∧ sec = group_entries c.fdisc [] ∨
        name = "no_type" ∧ sec = group_entries c.no_type []) with
        ⟨_, h⟩ | ⟨_, h⟩ | ⟨_, h⟩ | ⟨_, h⟩ <;>
        · rw [h]
          exact goodSection_group_entries _ [] ⟨by simp, by simp⟩
    have hgg := hgood.2 p hp
    refine ⟨hgg.2.2.2 kv hkv, ?_⟩
    rw [hgg.2.2.2 kv hkv]
    simpa [truthy] using hgg.1
  · intro b k v d hnd hm hds hd
    rw [hsec b]
    simp only [Option.getD_some]
    constructor
    · rw [group_entries_lookup_mem (getBucket c b) [] k v d hnd hm hds hd d,
        if_pos rfl]
    · intro d' hd'
      rw [group_entries_lookup_mem (getBucket c b) [] k v d hnd hm hds hd d',
        if_neg hd']
      rfl
  · intro b k v hnd hm hfalse d
    rw [hsec b]
    simp only [Option.getD_some]
    rw [group_entries_lookup_dateless (getBucket c b) [] k v hnd hm hfalse d]
    rfl

/-- Claim C7 witness: a dated record appears under exactly its date key
and a date-less record appears nowhere, on a concrete two-record
classified collection. -/
theorem grouper_date_partition_witness :
    lookup2 ((dictGet (sort_by_date cSmall) (sectionName Bucket.unievc)).getD [])
      "01-02-2024" "K" = some recDated ∧
    lookup2 ((dictGet (sort_by_date cSmall) (sectionName Bucket.unievc)).getD [])
      "02-02-2024" "K" = none ∧
    lookup2 ((dictGet (sort_by_date cSmall) (sectionName Bucket.no_type)).getD [])
      "01-02-2024" "K2" = none :=
  ⟨((grouper_date_partition cSmall).2.2.1 Bucket.unievc "K" recDated "01-02-2024"
      (by decide) (by decide) rfl (by decide)).1,
   ((grouper_date_partition cSmall).2.2.1 Bucket.unievc "K" recDated "01-02-2024"
      (by decide) (by decide) rfl (by decide)).2 "02-02-2024" (by decide),
   (grouper_date_partition cSmall).2.2.2 Bucket.no_type "K2" (initRec "K2")
      (by decide) (by decide) (by decide) "01-02-2024"⟩

end TMO
